import Mathlib

/-!
# Verification of `pixel_art_generator.py`

A shallow embedding of the pixel-art generator: configuration validation,
palette selection, coarse-grid synthesis with symmetry, block expansion to
pixel rows, and the PNG encoder (chunk framing with CRC-32, zlib container).

Python integers are modelled as `Int` (with `Int.fdiv`/`Int.fmod` for
Python's flooring `//` and `%`), Python floats as `ℚ`, byte strings as
`List ℕ` of values below 256, and raised exceptions as `Except PyError`.
-/

/-- An RGB colour triple, as the Python 3-tuples in `PALETTES`. -/
structure Color where
  r : ℕ
  g : ℕ
  b : ℕ
deriving DecidableEq, Repr

/-- Python's `sum` over a colour tuple (used as the `min` key in
`_determine_background`). -/
def colorSum (c : Color) : ℕ := c.r + c.g + c.b

/-- The three bytes of a colour in R,G,B order, as appended to the row
bytearray by `row_bytes.extend(colour)`. -/
def colorBytes (c : Color) : List ℕ := [c.r, c.g, c.b]

/-- The fixed palette table `PALETTES` of the source module. -/
def PALETTES : List (List Color) :=
  [ [⟨26, 28, 44⟩, ⟨93, 39, 93⟩, ⟨177, 62, 83⟩, ⟨239, 125, 87⟩, ⟨255, 205, 117⟩],
    [⟨7, 48, 66⟩, ⟨231, 111, 81⟩, ⟨244, 162, 97⟩, ⟨233, 196, 106⟩, ⟨42, 157, 143⟩],
    [⟨40, 42, 54⟩, ⟨68, 71, 90⟩, ⟨189, 147, 249⟩, ⟨255, 85, 85⟩, ⟨80, 250, 123⟩],
    [⟨15, 32, 39⟩, ⟨52, 78, 65⟩, ⟨158, 174, 162⟩, ⟨242, 233, 228⟩, ⟨215, 38, 56⟩],
    [⟨30, 30, 30⟩, ⟨70, 70, 70⟩, ⟨120, 120, 120⟩, ⟨200, 200, 200⟩, ⟨250, 250, 250⟩] ]

/-- The Python exceptions the embedded code can raise. -/
inductive PyError where
  /-- `ValueError` with its message. -/
  | valueError (msg : String) : PyError
  /-- `ZeroDivisionError`, raised by `%` with a zero right operand. -/
  | zeroDivisionError : PyError
  /-- `struct.error`, raised by `struct.pack` on an out-of-range argument. -/
  | structError : PyError
deriving DecidableEq, Repr

/-- Python sequence indexing `l[i]`: negative indices count from the end.
Callers check `-l.length ≤ i < l.length` first (otherwise Python raises
`IndexError`). -/
def pyGet (l : List α) (i : Int) (d : α) : α :=
  if i < 0 then l.getD (i + l.length).toNat d else l.getD i.toNat d

/-- The `PixelArtConfig` dataclass (fields and defaults as in the source). -/
structure PixelArtConfig where
  size : Int := 128
  grid_cells : Int := 16
  symmetry : String := "vertical"
  palette_index : Option Int := none
  background_ratio : ℚ := 45 / 100
deriving DecidableEq, Repr

/-- `PixelArtConfig.__post_init__`: the validation run at construction.
Python evaluates `self.size % self.grid_cells` first, so `grid_cells = 0`
raises `ZeroDivisionError` before any `ValueError` check; Python's `%` is
the flooring `Int.fmod`. -/
def PixelArtConfig.postInit (cfg : PixelArtConfig) : Except PyError Unit := do
  if cfg.grid_cells = 0 then
    throw .zeroDivisionError
  if Int.fmod cfg.size cfg.grid_cells ≠ 0 then
    throw (.valueError "size must be divisible by grid_cells for clean pixels")
  if ¬ (cfg.symmetry = "none" ∨ cfg.symmetry = "vertical" ∨
        cfg.symmetry = "horizontal" ∨ cfg.symmetry = "quadrant") then
    throw (.valueError "symmetry must be one of: none, vertical, horizontal, quadrant")
  if ¬ ((0 : ℚ) ≤ cfg.background_ratio ∧ cfg.background_ratio ≤ 1) then
    throw (.valueError "background_ratio must be between 0.0 and 1.0")
  if (cfg.symmetry = "vertical" ∨ cfg.symmetry = "horizontal" ∨
      cfg.symmetry = "quadrant") ∧ Int.fmod cfg.grid_cells 2 ≠ 0 then
    throw (.valueError "grid_cells must be even when using the selected symmetry")
  return ()

/-- Modelled from the spec: `random.Random` is an external black box (§6),
"a … uniform random generator supporting 'uniform real in [0,1)' and
'uniform choice from a finite sequence'".  It is modelled as two
seed-determined draw streams indexed by the number of rng operations already
consumed, so that the order of consumption is explicit. -/
structure Rng where
  reals : ℕ → ℚ
  choiceDraws : ℕ → ℕ
  k : ℕ

/-- `rng.random()`: one uniform real draw, consuming one rng operation. -/
def Rng.random (rng : Rng) : ℚ × Rng :=
  (rng.reals rng.k, { rng with k := rng.k + 1 })

/-- `rng.choice(seq)`: one uniform choice from a non-empty sequence,
consuming one rng operation. -/
def Rng.choice (rng : Rng) (l : List α) (d : α) : α × Rng :=
  (l.getD (rng.choiceDraws rng.k % l.length) d, { rng with k := rng.k + 1 })

/-- Modelled from the spec: `random.Random(seed)` deterministically
initialises the black-box rng from the seed (§6, §8 "fixed seed").  Both
draw streams are functions of the seed alone, and the operation counter
starts at zero. -/
def rngOfSeed (realsOf : Int → ℕ → ℚ) (choicesOf : Int → ℕ → ℕ) (seed : Int) : Rng :=
  ⟨realsOf seed, choicesOf seed, 0⟩

/-- `_choose_palette`: an omitted index draws a uniformly-random palette;
an explicit index uses Python indexing, raising (as `ValueError`) exactly
when Python raises `IndexError`, i.e. when `index ∉ [-5, 5)`. -/
def choose_palette (rng : Rng) (palette_index : Option Int) :
    Except PyError (List Color × Rng) :=
  match palette_index with
  | none => .ok (rng.choice PALETTES [])
  | some i =>
      if -(PALETTES.length : Int) ≤ i ∧ i < PALETTES.length then
        .ok (pyGet PALETTES i [], rng)
      else
        .error (.valueError "Invalid palette_index. There are 5 palettes.")

/-- `_apply_symmetry_row`: `half = len(row) // 2`; vertical and quadrant
return the first half followed by its reverse; none and horizontal return
the row unchanged. -/
def apply_symmetry_row (row : List Color) (symmetry : String) : List Color :=
  if symmetry = "none" then row
  else
    let half := row.length / 2
    if symmetry = "vertical" then row.take half ++ (row.take half).reverse
    else if symmetry = "horizontal" then row
    else if symmetry = "quadrant" then row.take half ++ (row.take half).reverse
    else row

/-- `_mirror_grid_horizontally`: for `y < len(grid) // 2` set
`grid[-(y+1)] = grid[y]`; rows with index `i ≥ n - half` become copies of
row `n - 1 - i`, the others are unchanged. -/
def mirror_grid_horizontally (grid : List (List Color)) : List (List Color) :=
  let n := grid.length
  let half := n / 2
  (List.range n).map (fun i => if n - half ≤ i then grid.getD (n - 1 - i) [] else grid.getD i [])

/-- `_determine_background`: Python's `min(palette, key=sum)` — a
left-to-right scan replacing the current best only on a strictly smaller
key, hence the first minimal-sum entry wins.  (Python raises on an empty
sequence; the `[]` case is junk and never reached from the table.) -/
def determine_background (palette : List Color) : Color :=
  match palette with
  | [] => ⟨0, 0, 0⟩
  | c :: rest => rest.foldl (fun best x => if colorSum x < colorSum best then x else best) c

/-! ## The PNG encoder -/

/-- `struct.pack(">I", n)`: the four big-endian bytes of `n` (faithful for
`n < 2^32`; Python raises `struct.error` beyond, which callers that can
reach that range model explicitly). -/
def be32 (n : ℕ) : List ℕ :=
  [n / 2 ^ 24 % 256, n / 2 ^ 16 % 256, n / 2 ^ 8 % 256, n % 256]

/-- The value a 4-byte big-endian field decodes to. -/
def readBe32 (l : List ℕ) : ℕ :=
  l.getD 0 0 * 2 ^ 24 + l.getD 1 0 * 2 ^ 16 + l.getD 2 0 * 2 ^ 8 + l.getD 3 0

/-- One step of the reflected CRC-32 bit loop (polynomial `0xEDB88320`). -/
def crcStep (c : ℕ) : ℕ :=
  if c % 2 = 1 then (c / 2) ^^^ 0xEDB88320 else c / 2

/-- Fold one byte into the CRC state: xor into the low byte, then eight bit
steps. -/
def crcByte (c b : ℕ) : ℕ := crcStep^[8] (c ^^^ b % 256)

/-- `zlib.crc32`: the standard CRC-32 (init `0xFFFFFFFF`, reflected
polynomial `0xEDB88320`, final xor `0xFFFFFFFF`) of a byte sequence. -/
def crc32 (data : List ℕ) : ℕ :=
  data.foldl crcByte 0xFFFFFFFF ^^^ 0xFFFFFFFF

/-- `_png_chunk`: 4-byte big-endian payload length, the 4-byte chunk type,
the payload, then the 4-byte big-endian CRC-32 of chunk type ++ payload
(the source's `& 0xFFFFFFFF` kept verbatim). -/
def png_chunk (chunk_type data : List ℕ) : List ℕ :=
  be32 data.length ++ chunk_type ++ data ++ be32 (crc32 (chunk_type ++ data) &&& 0xFFFFFFFF)

/-! ## Model of the external zlib compressor

The spec (§6) treats the compressor as a black box: "a general-purpose
deflate/zlib-compatible compressor".  It is modelled as a zlib stream of
stored (uncompressed) deflate blocks — header bytes, stored blocks of at
most 65535 bytes each, and the Adler-32 trailer — together with the
matching decompressor, so that determinism and the lossless round-trip
(the only properties the source relies on) are actual theorems of the
model. -/

/-- Adler-32 checksum (the zlib stream trailer), as four big-endian bytes. -/
def adler32 (data : List ℕ) : List ℕ :=
  let p := data.foldl (fun s b => ((s.1 + b % 256) % 65521, (s.2 + (s.1 + b % 256) % 65521) % 65521))
    ((1 : ℕ), (0 : ℕ))
  be32 (p.2 * 65536 + p.1)

/-- The deflate body as stored blocks (one fuel unit per emitted block; any
fuel above the byte count is sufficient): each block is a final-flag byte,
the little-endian 16-bit length, its complement, then the raw bytes. -/
def deflateStoredAux (fuel : ℕ) (l : List ℕ) : List ℕ :=
  match fuel with
  | 0 => []
  | fuel + 1 =>
      if l.length ≤ 65535 then
        1 :: l.length % 256 :: l.length / 256 ::
          (65535 - l.length) % 256 :: (65535 - l.length) / 256 :: l
      else
        0 :: 255 :: 255 :: 0 :: 0 :: (l.take 65535 ++ deflateStoredAux fuel (l.drop 65535))

/-- The deflate body of a byte sequence as stored blocks. -/
def deflateStored (l : List ℕ) : List ℕ := deflateStoredAux (l.length + 1) l

/-- Parse stored deflate blocks (one fuel unit per block); trailing bytes
after the final block are ignored. -/
def inflateStoredAux (fuel : ℕ) (l : List ℕ) : Option (List ℕ) :=
  match fuel with
  | 0 => none
  | fuel + 1 =>
      match l with
      | bf :: l0 :: l1 :: _ :: _ :: rest =>
          let len := l0 + 256 * l1
          if rest.length < len then none
          else if bf % 2 = 1 then some (rest.take len)
          else
            match inflateStoredAux fuel (rest.drop len) with
            | some tail => some (rest.take len ++ tail)
            | none => none
      | _ => none

/-- Parse a stored-block deflate body. -/
def inflateStored (l : List ℕ) : Option (List ℕ) := inflateStoredAux l.length l

/-- `zlib.compress`: 2-byte zlib header, the deflate body, the Adler-32
trailer. -/
def zlibCompress (data : List ℕ) : List ℕ :=
  0x78 :: 0x01 :: (deflateStored data ++ adler32 data)

/-- `zlib.decompress`: strip the 2-byte header and inflate the body. -/
def zlibDecompress (l : List ℕ) : Option (List ℕ) :=
  match l with
  | _ :: _ :: rest => inflateStored rest
  | _ => none

/-! ## Grid synthesis and the top-level generator -/

/-- The inner loop body of `generate_pixel_art`: generate `w` cells left to
right, threading the rng.  Each cell first consumes one `rng.random()`
draw; a draw `< background_ratio` yields the background with no further
draw, otherwise one `rng.choice(palette)` draw follows. -/
def genRow (ratio : ℚ) (bg : Color) (palette : List Color) :
    ℕ → Rng → List Color × Rng
  | 0, rng => ([], rng)
  | w + 1, rng =>
      let p := rng.random
      let q := if p.1 < ratio then (bg, p.2) else p.2.choice palette bg
      let rest := genRow ratio bg palette w q.2
      (q.1 :: rest.1, rest.2)

/-- The outer loop of `generate_pixel_art`: `n` rows, each generated by
`genRow` and then passed through `_apply_symmetry_row` (with `"vertical"`
substituted for `"quadrant"`, as in the source). -/
def genRows (ratio : ℚ) (bg : Color) (palette : List Color) (symmetry : String) (w : ℕ) :
    ℕ → Rng → List (List Color) × Rng
  | 0, rng => ([], rng)
  | n + 1, rng =>
      let p := genRow ratio bg palette w rng
      let row :=
        if symmetry = "vertical" ∨ symmetry = "quadrant" then
          apply_symmetry_row p.1 "vertical"
        else
          apply_symmetry_row p.1 symmetry
      let rest := genRows ratio bg palette symmetry w n p.2
      (row :: rest.1, rest.2)

/-- The number of columns actually generated per row:
`grid_cells // (2 if symmetry in {"vertical", "quadrant"} else 1)`
(Python `range` of a negative count is empty, hence `.toNat`). -/
def genWidth (cfg : PixelArtConfig) : ℕ :=
  (Int.fdiv cfg.grid_cells
    (if cfg.symmetry = "vertical" ∨ cfg.symmetry = "quadrant" then 2 else 1)).toNat

/-- The coarse grid built by `generate_pixel_art` (rows 136–152): the
row-generation loop followed by `_mirror_grid_horizontally` for horizontal
and quadrant symmetry. -/
def buildGrid (cfg : PixelArtConfig) (bg : Color) (palette : List Color) (rng : Rng) :
    List (List Color) × Rng :=
  let p := genRows cfg.background_ratio bg palette cfg.symmetry (genWidth cfg)
    cfg.grid_cells.toNat rng
  if cfg.symmetry = "horizontal" ∨ cfg.symmetry = "quadrant" then
    (mirror_grid_horizontally p.1, p.2)
  else
    p

/-- The byte string of one expanded pixel row: every coarse cell repeated
`cell_size` times, each colour contributing its three bytes. -/
def rowBytes (cell_size : ℕ) (row : List Color) : List ℕ :=
  ((row.map (List.replicate cell_size)).flatten.map colorBytes).flatten

/-- The `pixel_rows` list (rows 154–166): each grid row expands to one byte
row, appended `cell_size` times. -/
def pixelRows (cell_size : ℕ) (grid : List (List Color)) : List (List ℕ) :=
  (grid.map (fun row => List.replicate cell_size (rowBytes cell_size row))).flatten

/-- `_write_png`, producing the byte stream handed to the sink: signature,
IHDR chunk, IDAT chunk holding the compressed filtered rows, IEND chunk.
`struct.pack(">IIBBBBB", …)` raises `struct.error` unless both dimensions
fit an unsigned 32-bit field. -/
def write_png (width height : Int) (rows : List (List ℕ)) : Except PyError (List ℕ) :=
  if 0 ≤ width ∧ width < 2 ^ 32 ∧ 0 ≤ height ∧ height < 2 ^ 32 then
    let ihdr := be32 width.toNat ++ be32 height.toNat ++ [8, 2, 0, 0, 0]
    let raw := (rows.map (fun row => 0 :: row)).flatten
    .ok ([0x89, 0x50, 0x4E, 0x47, 0x0D, 0x0A, 0x1A, 0x0A] ++
      png_chunk [73, 72, 68, 82] ihdr ++
      png_chunk [73, 68, 65, 84] (zlibCompress raw) ++
      png_chunk [73, 69, 78, 68] [])
  else
    .error .structError

/-- `generate_pixel_art` (rows 108–168), with the destination path replaced
by the byte stream it would write: choose the palette, compute the
background, synthesize the coarse grid, expand to pixel rows, encode. -/
def generate_pixel_art (cfg : PixelArtConfig) (rng : Rng) : Except PyError (List ℕ) := do
  let p ← choose_palette rng cfg.palette_index
  let background_colour := determine_background p.1
  let cell_size := (Int.fdiv cfg.size cfg.grid_cells).toNat
  let g := buildGrid cfg background_colour p.1 p.2
  write_png cfg.size cfg.size (pixelRows cell_size g.1)

/-! ## Theorems -/

deriving instance DecidableEq for Except

/-- A concrete rng whose draw streams are constantly zero (every real draw
is `0 ∈ [0,1)`, every choice draw picks index `0`). -/
def rngZero : Rng := ⟨fun _ => 0, fun _ => 0, 0⟩

/-- A small valid configuration with vertical symmetry: `8 % 4 = 0`, `4`
even, ratio `1 ∈ [0,1]`. -/
def cfgVert : PixelArtConfig :=
  { size := 8, grid_cells := 4, symmetry := "vertical",
    palette_index := some 0, background_ratio := 1 }

theorem crcStep_lt (c : ℕ) (h : c < 2 ^ 32) : crcStep c < 2 ^ 32 := by
  unfold crcStep
  split
  · exact Nat.xor_lt_two_pow (lt_of_le_of_lt (Nat.div_le_self c 2) h) (by norm_num)
  · exact lt_of_le_of_lt (Nat.div_le_self c 2) h

theorem crcStep_iterate_lt (n c : ℕ) (h : c < 2 ^ 32) : crcStep^[n] c < 2 ^ 32 := by
  induction n generalizing c with
  | zero => exact h
  | succ n ih => rw [Function.iterate_succ_apply]; exact ih _ (crcStep_lt c h)

theorem crcByte_lt (c b : ℕ) (h : c < 2 ^ 32) : crcByte c b < 2 ^ 32 :=
  crcStep_iterate_lt 8 _
    (Nat.xor_lt_two_pow h (lt_of_lt_of_le (Nat.mod_lt b (by norm_num)) (by norm_num)))

theorem crc32_lt (l : List ℕ) : crc32 l < 2 ^ 32 := by
  unfold crc32
  refine Nat.xor_lt_two_pow ?_ (by norm_num)
  have : ∀ (l : List ℕ) (c : ℕ), c < 2 ^ 32 → l.foldl crcByte c < 2 ^ 32 := by
    intro l
    induction l with
    | nil => exact fun c h => h
    | cons b t ih => exact fun c h => ih _ (crcByte_lt c b h)
  exact this l 0xFFFFFFFF (by norm_num)

theorem crc32_mask (l : List ℕ) : crc32 l &&& 0xFFFFFFFF = crc32 l := by
  have h : (0xFFFFFFFF : ℕ) = 2 ^ 32 - 1 := by norm_num
  rw [h, Nat.and_pow_two_sub_one_eq_mod, Nat.mod_eq_of_lt (crc32_lt l)]

theorem readBe32_be32 (n : ℕ) (h : n < 2 ^ 32) : readBe32 (be32 n) = n := by
  simp only [readBe32, be32, List.getD_cons_zero, List.getD_cons_succ]
  omega

/-- C3: every chunk emitted by the encoder is framed as: a 4-byte
big-endian length field that decodes to the payload's byte length, the
chunk-type tag, the payload, then the 4-byte big-endian CRC-32 computed
over the chunk type concatenated with the payload (the length field is
excluded from the checksum). -/
theorem C3_chunk_framing (chunk_type data : List ℕ) (h : data.length < 2 ^ 32) :
    (png_chunk chunk_type data).take 4 = be32 data.length ∧
    readBe32 ((png_chunk chunk_type data).take 4) = data.length ∧
    ((png_chunk chunk_type data).drop 4).take chunk_type.length = chunk_type ∧
    (((png_chunk chunk_type data).drop 4).drop chunk_type.length).take data.length = data ∧
    ((png_chunk chunk_type data).drop 4).drop (chunk_type.length + data.length) =
      be32 (crc32 (chunk_type ++ data)) := by
  have h4 : (be32 data.length).length = 4 := rfl
  have htake : (png_chunk chunk_type data).take 4 = be32 data.length := by
    rw [png_chunk, List.append_assoc, List.append_assoc, ← h4, List.take_left]
  have hdrop : (png_chunk chunk_type data).drop 4 =
      chunk_type ++ (data ++ be32 (crc32 (chunk_type ++ data) &&& 0xFFFFFFFF)) := by
    rw [png_chunk, List.append_assoc, List.append_assoc, ← h4, List.drop_left]
  refine ⟨htake, by rw [htake]; exact readBe32_be32 _ h, ?_, ?_, ?_⟩
  · rw [hdrop, List.take_left]
  · rw [hdrop, List.drop_left, List.take_left]
  · rw [hdrop, crc32_mask, ← List.append_assoc, ← List.length_append, List.drop_left]

/-- C3 witness: the framing property at the IEND chunk (4-byte tag, empty
payload). -/
theorem C3_chunk_framing_witness :
    (png_chunk [73, 69, 78, 68] []).take 4 = be32 (List.length ([] : List ℕ)) ∧
    readBe32 ((png_chunk [73, 69, 78, 68] []).take 4) = List.length ([] : List ℕ) ∧
    ((png_chunk [73, 69, 78, 68] []).drop 4).take (List.length [73, 69, 78, 68]) = [73, 69, 78, 68] ∧
    (((png_chunk [73, 69, 78, 68] []).drop 4).drop (List.length [73, 69, 78, 68])).take
      (List.length ([] : List ℕ)) = ([] : List ℕ) ∧
    ((png_chunk [73, 69, 78, 68] []).drop 4).drop
      (List.length [73, 69, 78, 68] + List.length ([] : List ℕ)) =
      be32 (crc32 ([73, 69, 78, 68] ++ [])) :=
  C3_chunk_framing [73, 69, 78, 68] [] (by decide)

/-- C1: for a fixed configuration and a fixed seed, two independent
invocations of `generate_pixel_art` — each constructing its own rng from
that seed — produce byte-identical output streams: the pipeline is a pure
function of the configuration and the seed-determined rng. -/
theorem C1_determinism (cfg : PixelArtConfig) (realsOf : Int → ℕ → ℚ)
    (choicesOf : Int → ℕ → ℕ) (seed : Int) (r₁ r₂ : Rng)
    (hcfg : cfg.postInit = .ok ())
    (h₁ : r₁ = rngOfSeed realsOf choicesOf seed)
    (h₂ : r₂ = rngOfSeed realsOf choicesOf seed) :
    generate_pixel_art cfg r₁ = generate_pixel_art cfg r₂ := by
  subst h₁; subst h₂; rfl

/-- C1 witness: two invocations at a concrete configuration and seed. -/
theorem C1_determinism_witness :
    generate_pixel_art cfgVert (rngOfSeed (fun _ _ => 0) (fun _ _ => 0) 42) =
      generate_pixel_art cfgVert (rngOfSeed (fun _ _ => 0) (fun _ _ => 0) 42) :=
  C1_determinism cfgVert (fun _ _ => 0) (fun _ _ => 0) 42 _ _ (by decide) rfl rfl

/-- C5: evaluating `__post_init__` at the boundary inputs.  A negative
`grid_cells` that divides `size` under Python's flooring `%` is accepted
(no error at all), and `grid_cells = 0` raises `ZeroDivisionError` rather
than the `ValueError` standing for `InvalidConfiguration`; the
non-divisible and odd-symmetric cases do raise `ValueError` as claimed. -/
theorem C5_boundary_eval :
    ({ size := 128, grid_cells := -16, background_ratio := 1 : PixelArtConfig }).postInit =
      .ok () ∧
    ({ size := 128, grid_cells := 0, background_ratio := 1 : PixelArtConfig }).postInit =
      .error .zeroDivisionError ∧
    ({ size := 128, grid_cells := 10, background_ratio := 1 : PixelArtConfig }).postInit =
      .error (.valueError "size must be divisible by grid_cells for clean pixels") ∧
    ({ size := 120, grid_cells := 15, symmetry := "horizontal",
       background_ratio := 1 : PixelArtConfig }).postInit =
      .error (.valueError "grid_cells must be even when using the selected symmetry") := by
  decide

/-- C6 counterexample: the explicit index `-1` is outside `[0, N)` but does
not fail — Python's negative indexing returns the last palette. -/
theorem C6_counterexample :
    choose_palette rngZero (some (-1)) = .ok (PALETTES.getD 4 [], rngZero) ∧
    ∀ e, choose_palette rngZero (some (-1)) ≠ .error e := by
  refine ⟨rfl, fun e h => ?_⟩
  exact absurd (rfl.trans h :
    (Except.ok (PALETTES.getD 4 [], rngZero) : Except PyError (List Color × Rng)) = .error e)
    (fun hh => Except.noConfusion hh)

/-- The amended palette-selection contract, stated from the spec's side:
indices in `[0, N)` select directly, indices in `[-N, 0)` select from the
end (Python indexing), and only indices outside `[-N, N)` fail. -/
def specSelect (i : Int) : Option (List Color) :=
  if 0 ≤ i ∧ i < 5 then some (PALETTES.getD i.toNat [])
  else if -5 ≤ i ∧ i < 0 then some (PALETTES.getD (i + 5).toNat [])
  else none

/-- C6 amended: palette selection with an explicit index fails with the
`OutOfRange` error exactly for indices outside `[-N, N)`; an index in
`[0, N)` returns that palette, an index in `[-N, 0)` returns the palette
`index + N` (Python negative indexing); an omitted index consumes one
uniform rng choice over the table. -/
theorem C6_amended_select (i : Int) (rng : Rng) :
    choose_palette rng (some i) =
      (match specSelect i with
       | some p => .ok (p, rng)
       | none => .error (.valueError "Invalid palette_index. There are 5 palettes.")) ∧
    choose_palette rng none = .ok (rng.choice PALETTES []) := by
  refine ⟨?_, rfl⟩
  have hlen : (PALETTES.length : Int) = 5 := rfl
  by_cases h0 : 0 ≤ i ∧ i < 5
  · have : ¬ i < 0 := by omega
    simp [choose_palette, specSelect, pyGet, hlen, h0, this]
    omega
  · by_cases h1 : -5 ≤ i ∧ i < 0
    · simp [choose_palette, specSelect, pyGet, hlen, h0, h1, h1.2]
      omega
    · have : ¬ (-5 ≤ i ∧ i < 5) := by omega
      simp [choose_palette, specSelect, pyGet, hlen, h0, h1, this]

/-- The fold inside `min(palette, key=sum)`: scan left to right, replacing
the best only on a strictly smaller key. -/
def minScan (acc : Color) (l : List Color) : Color :=
  l.foldl (fun best x => if colorSum x < colorSum best then x else best) acc

/-- The scan returns the accumulator when nothing in the list strictly
beats it, and otherwise the first list element achieving the strict running
minimum: everything before the result is strictly larger, everything after
is no smaller. -/
theorem minScan_first (l : List Color) (acc : Color) :
    (minScan acc l = acc ∧ ∀ c ∈ l, colorSum acc ≤ colorSum c) ∨
    (∃ l₁ l₂, l = l₁ ++ minScan acc l :: l₂ ∧
      colorSum (minScan acc l) < colorSum acc ∧
      (∀ c ∈ l₁, colorSum (minScan acc l) < colorSum c) ∧
      (∀ c ∈ l₂, colorSum (minScan acc l) ≤ colorSum c)) := by
  induction l generalizing acc with
  | nil => exact Or.inl ⟨rfl, by simp⟩
  | cons x xs ih =>
    by_cases hx : colorSum x < colorSum acc
    · have hstep : minScan acc (x :: xs) = minScan x xs := by
        simp [minScan, hx]
      rw [hstep]
      rcases ih x with ⟨heq, hall⟩ | ⟨l₁, l₂, hsplit, hlt, h₁, h₂⟩
      · refine Or.inr ⟨[], xs, ?_, ?_, by simp, ?_⟩
        · rw [heq]; rfl
        · rw [heq]; exact hx
        · rw [heq]; exact hall
      · refine Or.inr ⟨x :: l₁, l₂, ?_, lt_trans hlt hx, ?_, h₂⟩
        · rw [List.cons_append, ← hsplit]
        · intro c hc
          rcases List.mem_cons.mp hc with rfl | hc
          · exact hlt
          · exact h₁ c hc
    · have hstep : minScan acc (x :: xs) = minScan acc xs := by
        simp [minScan, hx]
      rw [hstep]
      rcases ih acc with ⟨heq, hall⟩ | ⟨l₁, l₂, hsplit, hlt, h₁, h₂⟩
      · refine Or.inl ⟨heq, ?_⟩
        intro c hc
        rcases List.mem_cons.mp hc with rfl | hc
        · exact le_of_not_lt hx
        · exact hall c hc
      · refine Or.inr ⟨x :: l₁, l₂, ?_, hlt, ?_, h₂⟩
        · rw [List.cons_append, ← hsplit]
        · intro c hc
          rcases List.mem_cons.mp hc with rfl | hc
          · exact lt_of_lt_of_le hlt (le_of_not_lt hx)
          · exact h₁ c hc

/-- C7: for every non-empty palette the computed background is the first
palette entry of minimal channel sum — every entry strictly before it has a
strictly larger sum and every entry after it has a sum no smaller — and for
palette 0 the background is `(26, 28, 44)`. -/
theorem C7_background_min (palette : List Color) (h : palette ≠ []) :
    (∃ l₁ l₂, palette = l₁ ++ determine_background palette :: l₂ ∧
      (∀ c ∈ l₁, colorSum (determine_background palette) < colorSum c) ∧
      (∀ c ∈ l₂, colorSum (determine_background palette) ≤ colorSum c)) ∧
    determine_background (PALETTES.getD 0 []) = ⟨26, 28, 44⟩ := by
  refine ⟨?_, by decide⟩
  obtain ⟨c, rest, rfl⟩ := List.exists_cons_of_ne_nil h
  have hd : determine_background (c :: rest) = minScan c rest := rfl
  rw [hd]
  rcases minScan_first rest c with ⟨heq, hall⟩ | ⟨l₁, l₂, hsplit, hlt, h₁, h₂⟩
  · refine ⟨[], rest, ?_, by simp, ?_⟩
    · rw [heq]; rfl
    · rw [heq]; exact hall
  · refine ⟨c :: l₁, l₂, ?_, ?_, h₂⟩
    · rw [List.cons_append, ← hsplit]
    · intro x hx
      rcases List.mem_cons.mp hx with rfl | hx
      · exact hlt
      · exact h₁ x hx

/-- C7 witness: the characterization instantiated at palette 0. -/
theorem C7_background_min_witness :
    (∃ l₁ l₂, PALETTES.getD 0 [] = l₁ ++ determine_background (PALETTES.getD 0 []) :: l₂ ∧
      (∀ c ∈ l₁, colorSum (determine_background (PALETTES.getD 0 [])) < colorSum c) ∧
      (∀ c ∈ l₂, colorSum (determine_background (PALETTES.getD 0 [])) ≤ colorSum c)) ∧
    determine_background (PALETTES.getD 0 []) = ⟨26, 28, 44⟩ :=
  C7_background_min (PALETTES.getD 0 []) (by decide)

/-- The rng-operation index at which the `j`-th generated cell of a row
draws its uniform real, when row generation starts at operation `k₀`: the
spec's sequencing contract (§9) — a background cell consumes one operation,
any other cell two. -/
def drawPos (reals : ℕ → ℚ) (ratio : ℚ) (k₀ : ℕ) : ℕ → ℕ
  | 0 => k₀
  | j + 1 =>
      drawPos reals ratio k₀ j +
        (if reals (drawPos reals ratio k₀ j) < ratio then 1 else 2)

/-- One generated row as the spec words it (§4.2 step 3): cells in
left-to-right order; cell `j` makes its uniform draw at operation
`drawPos … j`, is the background iff that draw is `< background_ratio`, and
otherwise the immediately following operation is the uniform palette
choice. -/
def specRow (reals : ℕ → ℚ) (choices : ℕ → ℕ) (ratio : ℚ) (bg : Color)
    (palette : List Color) (k₀ w : ℕ) : List Color :=
  (List.range w).map (fun j =>
    if reals (drawPos reals ratio k₀ j) < ratio then bg
    else palette.getD (choices (drawPos reals ratio k₀ j + 1) % palette.length) bg)

/-- The operation index at which row `r` of the synthesis loop starts, when
the loop starts at operation `k₀` and generates `w` cells per row. -/
def rowStart (reals : ℕ → ℚ) (ratio : ℚ) (k₀ w : ℕ) : ℕ → ℕ
  | 0 => k₀
  | r + 1 => drawPos reals ratio (rowStart reals ratio k₀ w r) w

theorem drawPos_succ_left (reals : ℕ → ℚ) (ratio : ℚ) (k₀ j : ℕ) :
    drawPos reals ratio k₀ (j + 1) =
      drawPos reals ratio (k₀ + if reals k₀ < ratio then 1 else 2) j := by
  induction j with
  | zero => rfl
  | succ j ih =>
      rw [show drawPos reals ratio k₀ (j + 2) =
            drawPos reals ratio k₀ (j + 1) +
              (if reals (drawPos reals ratio k₀ (j + 1)) < ratio then 1 else 2) from rfl,
          ih]
      rfl

theorem rowStart_succ_left (reals : ℕ → ℚ) (ratio : ℚ) (k₀ w r : ℕ) :
    rowStart reals ratio k₀ w (r + 1) =
      rowStart reals ratio (drawPos reals ratio k₀ w) w r := by
  induction r with
  | zero => rfl
  | succ r ih =>
      rw [show rowStart reals ratio k₀ w (r + 2) =
            drawPos reals ratio (rowStart reals ratio k₀ w (r + 1)) w from rfl, ih]
      rfl

/-- The inner loop refines the spec's description: starting at operation
`rng.k` it produces exactly the spec row, and leaves the operation counter
at `drawPos rng.k w`. -/
theorem genRow_spec (ratio : ℚ) (bg : Color) (palette : List Color) (w : ℕ) (rng : Rng) :
    genRow ratio bg palette w rng =
      (specRow rng.reals rng.choiceDraws ratio bg palette rng.k w,
       ⟨rng.reals, rng.choiceDraws, drawPos rng.reals ratio rng.k w⟩) := by
  induction w generalizing rng with
  | zero => rfl
  | succ w ih =>
    by_cases hc : rng.reals rng.k < ratio
    · have hhead : genRow ratio bg palette (w + 1) rng =
          (bg :: (genRow ratio bg palette w { rng with k := rng.k + 1 }).1,
           (genRow ratio bg palette w { rng with k := rng.k + 1 }).2) := by
        simp [genRow, Rng.random, hc]
      rw [hhead, ih]
      have hmap : specRow rng.reals rng.choiceDraws ratio bg palette rng.k (w + 1) =
          bg :: specRow rng.reals rng.choiceDraws ratio bg palette (rng.k + 1) w := by
        unfold specRow
        rw [List.range_succ_eq_map, List.map_cons, List.map_map]
        congr 1
        · simp [drawPos, hc]
        · refine List.map_congr_left fun j _ => ?_
          have := drawPos_succ_left rng.reals ratio rng.k j
          rw [if_pos hc] at this
          simp only [Function.comp_apply, Nat.succ_eq_add_one, this]
      have hcnt : drawPos rng.reals ratio rng.k (w + 1) =
          drawPos rng.reals ratio (rng.k + 1) w := by
        have := drawPos_succ_left rng.reals ratio rng.k w
        rwa [if_pos hc] at this
      rw [hmap, hcnt]
    · have hhead : genRow ratio bg palette (w + 1) rng =
          (palette.getD (rng.choiceDraws (rng.k + 1) % palette.length) bg ::
             (genRow ratio bg palette w { rng with k := rng.k + 2 }).1,
           (genRow ratio bg palette w { rng with k := rng.k + 2 }).2) := by
        simp [genRow, Rng.random, Rng.choice, hc]
      rw [hhead, ih]
      have hmap : specRow rng.reals rng.choiceDraws ratio bg palette rng.k (w + 1) =
          palette.getD (rng.choiceDraws (rng.k + 1) % palette.length) bg ::
            specRow rng.reals rng.choiceDraws ratio bg palette (rng.k + 2) w := by
        unfold specRow
        rw [List.range_succ_eq_map, List.map_cons, List.map_map]
        congr 1
        · simp [drawPos, hc]
        · refine List.map_congr_left fun j _ => ?_
          have := drawPos_succ_left rng.reals ratio rng.k j
          rw [if_neg hc] at this
          simp only [Function.comp_apply, Nat.succ_eq_add_one, this]
      have hcnt : drawPos rng.reals ratio rng.k (w + 1) =
          drawPos rng.reals ratio (rng.k + 2) w := by
        have := drawPos_succ_left rng.reals ratio rng.k w
        rwa [if_neg hc] at this
      rw [hmap, hcnt]

/-- The outer loop refines the spec's row-major description: row `r` is the
spec row started at operation `rowStart rng.k w r` (then passed through the
per-row symmetry step), and the loop leaves the counter at
`rowStart rng.k w n`. -/
theorem genRows_spec (ratio : ℚ) (bg : Color) (palette : List Color) (symmetry : String)
    (w n : ℕ) (rng : Rng) :
    genRows ratio bg palette symmetry w n rng =
      ((List.range n).map (fun r =>
        if symmetry = "vertical" ∨ symmetry = "quadrant" then
          apply_symmetry_row (specRow rng.reals rng.choiceDraws ratio bg palette
            (rowStart rng.reals ratio rng.k w r) w) "vertical"
        else
          apply_symmetry_row (specRow rng.reals rng.choiceDraws ratio bg palette
            (rowStart rng.reals ratio rng.k w r) w) symmetry),
       ⟨rng.reals, rng.choiceDraws, rowStart rng.reals ratio rng.k w n⟩) := by
  induction n generalizing rng with
  | zero => rfl
  | succ n ih =>
    have hstep : genRows ratio bg palette symmetry w (n + 1) rng =
        ((if symmetry = "vertical" ∨ symmetry = "quadrant" then
            apply_symmetry_row (genRow ratio bg palette w rng).1 "vertical"
          else
            apply_symmetry_row (genRow ratio bg palette w rng).1 symmetry) ::
           (genRows ratio bg palette symmetry w n (genRow ratio bg palette w rng).2).1,
         (genRows ratio bg palette symmetry w n (genRow ratio bg palette w rng).2).2) := by
      simp [genRows]
    rw [hstep, genRow_spec, ih]
    have hmap : (List.range (n + 1)).map (fun r =>
        if symmetry = "vertical" ∨ symmetry = "quadrant" then
          apply_symmetry_row (specRow rng.reals rng.choiceDraws ratio bg palette
            (rowStart rng.reals ratio rng.k w r) w) "vertical"
        else
          apply_symmetry_row (specRow rng.reals rng.choiceDraws ratio bg palette
            (rowStart rng.reals ratio rng.k w r) w) symmetry) =
        (if symmetry = "vertical" ∨ symmetry = "quadrant" then
          apply_symmetry_row (specRow rng.reals rng.choiceDraws ratio bg palette rng.k w)
            "vertical"
        else
          apply_symmetry_row (specRow rng.reals rng.choiceDraws ratio bg palette rng.k w)
            symmetry) ::
        (List.range n).map (fun r =>
          if symmetry = "vertical" ∨ symmetry = "quadrant" then
            apply_symmetry_row (specRow rng.reals rng.choiceDraws ratio bg palette
              (rowStart rng.reals ratio (drawPos rng.reals ratio rng.k w) w r) w) "vertical"
          else
            apply_symmetry_row (specRow rng.reals rng.choiceDraws ratio bg palette
              (rowStart rng.reals ratio (drawPos rng.reals ratio rng.k w) w r) w) symmetry) := by
      rw [List.range_succ_eq_map, List.map_cons, List.map_map]
      congr 1
      refine List.map_congr_left fun r _ => ?_
      simp only [Function.comp_apply, Nat.succ_eq_add_one, rowStart_succ_left]
    rw [hmap, rowStart_succ_left]

/-- C9: rng draws are consumed in fixed row-major, left-to-right order over
the generated columns — `grid_cells // 2` per row for vertical or quadrant
symmetry, `grid_cells` otherwise.  Each generated cell makes exactly one
uniform real draw (row `r`, column `j` at operation
`rowStart rng.k w r` advanced cell by cell), is the background iff that
draw is strictly below `background_ratio`, and otherwise consumes exactly
one further palette-choice draw at the next operation; the loop ends with
the counter at `rowStart rng.k w n`. -/
theorem C9_rng_consumption :
    (∀ (ratio : ℚ) (bg : Color) (palette : List Color) (symmetry : String)
        (w n : ℕ) (rng : Rng),
      genRows ratio bg palette symmetry w n rng =
        ((List.range n).map (fun r =>
          if symmetry = "vertical" ∨ symmetry = "quadrant" then
            apply_symmetry_row (specRow rng.reals rng.choiceDraws ratio bg palette
              (rowStart rng.reals ratio rng.k w r) w) "vertical"
          else
            apply_symmetry_row (specRow rng.reals rng.choiceDraws ratio bg palette
              (rowStart rng.reals ratio rng.k w r) w) symmetry),
         ⟨rng.reals, rng.choiceDraws, rowStart rng.reals ratio rng.k w n⟩)) ∧
    ∀ cfg : PixelArtConfig,
      genWidth cfg =
        if cfg.symmetry = "vertical" ∨ cfg.symmetry = "quadrant" then
          (Int.fdiv cfg.grid_cells 2).toNat
        else
          cfg.grid_cells.toNat := by
  refine ⟨genRows_spec, fun cfg => ?_⟩
  unfold genWidth
  split
  · rfl
  · rw [Int.fdiv_one]

theorem getD_mem_of_lt (l : List α) (i : ℕ) (d : α) (h : i < l.length) : l.getD i d ∈ l := by
  rw [List.getD_eq_getElem l d h]
  exact List.getElem_mem h

/-- Every cell of a symmetry-processed row comes from the row itself. -/
theorem mem_apply_symmetry_row (row : List Color) (s : String) (c : Color)
    (h : c ∈ apply_symmetry_row row s) : c ∈ row := by
  unfold apply_symmetry_row at h
  split at h
  · exact h
  · split at h
    · rcases List.mem_append.mp h with h' | h'
      · exact List.mem_of_mem_take h'
      · exact List.mem_of_mem_take (List.mem_reverse.mp h')
    · split at h
      · exact h
      · split at h
        · rcases List.mem_append.mp h with h' | h'
          · exact List.mem_of_mem_take h'
          · exact List.mem_of_mem_take (List.mem_reverse.mp h')
        · exact h

/-- Every row of the horizontally mirrored grid is a row of the grid. -/
theorem mem_mirror_grid_horizontally (grid : List (List Color)) (row : List Color)
    (h : row ∈ mirror_grid_horizontally grid) : row ∈ grid := by
  unfold mirror_grid_horizontally at h
  rcases List.mem_map.mp h with ⟨i, hi, hrow⟩
  have hilt : i < grid.length := List.mem_range.mp hi
  subst hrow
  split
  · exact getD_mem_of_lt _ _ _ (by omega)
  · exact getD_mem_of_lt _ _ _ hilt

/-- With every real draw below the ratio, the spec row is all background. -/
theorem specRow_all_bg (reals : ℕ → ℚ) (choices : ℕ → ℕ) (ratio : ℚ) (bg : Color)
    (palette : List Color) (k₀ w : ℕ) (h : ∀ m, reals m < ratio) :
    specRow reals choices ratio bg palette k₀ w = List.replicate w bg := by
  unfold specRow
  have : ∀ j ∈ List.range w,
      (if reals (drawPos reals ratio k₀ j) < ratio then bg
       else palette.getD (choices (drawPos reals ratio k₀ j + 1) % palette.length) bg) = bg :=
    fun j _ => if_pos (h _)
  rw [List.map_congr_left this]
  have hrep : (List.range w).map (fun _ => bg) =
      List.replicate ((List.range w).map (fun _ => bg)).length bg :=
    List.eq_replicate_of_mem (fun b hb => (List.mem_map.mp hb).choose_spec.2.symm)
  rw [hrep, List.length_map, List.length_range]

theorem flatten_replicate_replicate (a b : ℕ) (x : α) :
    (List.replicate a (List.replicate b x)).flatten = List.replicate (a * b) x := by
  induction a with
  | zero => simp
  | succ a ih =>
      rw [List.replicate_succ, List.flatten_cons, ih, Nat.succ_mul, Nat.add_comm,
        List.replicate_add]

/-- On an all-background row, the expanded byte row is a repetition of the
background's three bytes. -/
theorem rowBytes_all_bg (cell : ℕ) (row : List Color) (bg : Color)
    (h : ∀ c ∈ row, c = bg) :
    rowBytes cell row = (List.replicate (row.length * cell) (colorBytes bg)).flatten := by
  have hrow : row = List.replicate row.length bg := List.eq_replicate_of_mem h
  rw [rowBytes]
  rw [show row.map (List.replicate cell) = List.replicate row.length (List.replicate cell bg) by
        rw [hrow, List.map_replicate, List.length_replicate]]
  rw [flatten_replicate_replicate, List.map_replicate]

/-- C10: with `background_ratio = 1` every uniform draw (a real in `[0,1)`)
is strictly below the ratio, so every cell of the built coarse grid equals
the computed background colour, and every emitted pixel row is a repetition
of the background's three bytes — every pixel of the output is the
background colour. -/
theorem C10_all_background (cfg : PixelArtConfig) (rng : Rng) (palette : List Color)
    (hval : cfg.postInit = .ok ()) (hratio : cfg.background_ratio = 1)
    (hrng : ∀ m, 0 ≤ rng.reals m ∧ rng.reals m < 1) :
    (∀ row ∈ (buildGrid cfg (determine_background palette) palette rng).1,
      ∀ c ∈ row, c = determine_background palette) ∧
    (∀ prow ∈ pixelRows (Int.fdiv cfg.size cfg.grid_cells).toNat
        (buildGrid cfg (determine_background palette) palette rng).1,
      ∃ m, prow = (List.replicate m (colorBytes (determine_background palette))).flatten) := by
  have hlt : ∀ m, rng.reals m < cfg.background_ratio := by
    intro m
    rw [hratio]
    exact (hrng m).2
  have hall : ∀ row ∈ (buildGrid cfg (determine_background palette) palette rng).1,
      ∀ c ∈ row, c = determine_background palette := by
    intro row hrow c hc
    have hgen : ∀ row ∈ (genRows cfg.background_ratio (determine_background palette) palette
        cfg.symmetry (genWidth cfg) cfg.grid_cells.toNat rng).1,
        ∀ c ∈ row, c = determine_background palette := by
      intro row hrow c hc
      rw [genRows_spec] at hrow
      rcases List.mem_map.mp hrow with ⟨r, _, hr⟩
      have hcell : c ∈ specRow rng.reals rng.choiceDraws cfg.background_ratio
          (determine_background palette) palette
          (rowStart rng.reals cfg.background_ratio rng.k (genWidth cfg) r) (genWidth cfg) := by
        rcases Decidable.em (cfg.symmetry = "vertical" ∨ cfg.symmetry = "quadrant") with hs | hs
        · rw [if_pos hs] at hr
          exact mem_apply_symmetry_row _ _ _ (hr ▸ hc)
        · rw [if_neg hs] at hr
          exact mem_apply_symmetry_row _ _ _ (hr ▸ hc)
      rw [specRow_all_bg _ _ _ _ _ _ _ hlt] at hcell
      exact List.eq_of_mem_replicate hcell
    unfold buildGrid at hrow
    split at hrow
    · exact hgen _ (mem_mirror_grid_horizontally _ _ hrow) c hc
    · exact hgen _ hrow c hc
  refine ⟨hall, ?_⟩
  intro prow hprow
  unfold pixelRows at hprow
  rcases List.mem_flatten.mp hprow with ⟨l, hl, hpl⟩
  rcases List.mem_map.mp hl with ⟨row, hrow, hrepl⟩
  subst hrepl
  have : prow = rowBytes (Int.fdiv cfg.size cfg.grid_cells).toNat row :=
    List.eq_of_mem_replicate hpl
  subst this
  exact ⟨row.length * (Int.fdiv cfg.size cfg.grid_cells).toNat,
    rowBytes_all_bg _ _ _ (hall row hrow)⟩

/-- C10 witness: the all-background property at a concrete configuration
with ratio 1, constantly-zero draws, and palette 0. -/
theorem C10_all_background_witness :
    (∀ row ∈ (buildGrid cfgVert (determine_background (PALETTES.getD 0 []))
        (PALETTES.getD 0 []) rngZero).1,
      ∀ c ∈ row, c = determine_background (PALETTES.getD 0 [])) ∧
    (∀ prow ∈ pixelRows (Int.fdiv cfgVert.size cfgVert.grid_cells).toNat
        (buildGrid cfgVert (determine_background (PALETTES.getD 0 []))
          (PALETTES.getD 0 []) rngZero).1,
      ∃ m, prow =
        (List.replicate m (colorBytes (determine_background (PALETTES.getD 0 [])))).flatten) :=
  C10_all_background cfgVert rngZero (PALETTES.getD 0 []) (by decide) rfl
    (fun m => ⟨le_refl 0, by show (0 : ℚ) < 1; norm_num⟩)

theorem inflate_deflate_aux (f₁ : ℕ) :
    ∀ (l extra : List ℕ) (f₂ : ℕ), l.length < f₁ → l.length < f₂ →
      inflateStoredAux f₂ (deflateStoredAux f₁ l ++ extra) = some l := by
  induction f₁ with
  | zero => intro l extra f₂ h₁ _; omega
  | succ f₁ ih =>
    intro l extra f₂ h₁ h₂
    obtain ⟨m, rfl⟩ : ∃ m, f₂ = m + 1 := ⟨f₂ - 1, by omega⟩
    by_cases hle : l.length ≤ 65535
    · rw [show deflateStoredAux (f₁ + 1) l =
          1 :: l.length % 256 :: l.length / 256 ::
            (65535 - l.length) % 256 :: (65535 - l.length) / 256 :: l by
        rw [deflateStoredAux, if_pos hle]]
      simp only [List.cons_append, inflateStoredAux]
      rw [show l.length % 256 + 256 * (l.length / 256) = l.length by omega]
      rw [if_neg (by rw [List.length_append]; omega)]
      norm_num [List.take_left]
    · rw [show deflateStoredAux (f₁ + 1) l =
          0 :: 255 :: 255 :: 0 :: 0 ::
            (l.take 65535 ++ deflateStoredAux f₁ (l.drop 65535)) by
        rw [deflateStoredAux, if_neg hle]]
      simp only [List.cons_append, inflateStoredAux]
      have htl : (l.take 65535).length = 65535 := by
        rw [List.length_take]
        omega
      rw [List.append_assoc]
      rw [show (255 : ℕ) + 256 * 255 = 65535 by norm_num]
      rw [if_neg (by rw [List.length_append, htl]; omega)]
      norm_num
      rw [List.drop_left' htl, List.take_left' htl]
      have hrec := ih (l.drop 65535) extra m
        (by rw [List.length_drop]; omega) (by rw [List.length_drop]; omega)
      rw [hrec]
      show some (List.take 65535 l ++ List.drop 65535 l) = some l
      rw [List.take_append_drop]

theorem deflateStoredAux_length (f : ℕ) :
    ∀ l : List ℕ, l.length < f → l.length + 5 ≤ (deflateStoredAux f l).length := by
  induction f with
  | zero => intro l h; omega
  | succ f ih =>
    intro l h
    by_cases hle : l.length ≤ 65535
    · rw [deflateStoredAux, if_pos hle]
      simp
    · rw [deflateStoredAux, if_neg hle]
      have hrec := ih (l.drop 65535) (by rw [List.length_drop]; omega)
      have htl : (l.take 65535).length = 65535 := by
        rw [List.length_take]
        omega
      simp only [List.length_cons, List.length_append, List.length_drop] at *
      omega

/-- The modelled compressor is lossless: decompression recovers the exact
byte stream (the property §4.4 and §8 "Compression round-trip" rely on). -/
theorem zlib_roundtrip (data : List ℕ) : zlibDecompress (zlibCompress data) = some data := by
  have hlen := deflateStoredAux_length (data.length + 1) data (by omega)
  rw [zlibCompress, zlibDecompress, inflateStored, deflateStored]
  exact inflate_deflate_aux (data.length + 1) data (adler32 data) _
    (by omega) (by rw [List.length_append]; omega)

/-- C2: evaluating the synthesizer at a valid vertical-symmetry
configuration (`size = 8`, `grid_cells = 4`): every row of the built coarse
grid has length 2, not `grid_cells = 4` — `_apply_symmetry_row` halves the
already half-width generated row — so no row has a column
`grid_cells - 1 - c` to mirror column `c` into. -/
theorem C2_grid_eval :
    cfgVert.postInit = .ok () ∧ cfgVert.grid_cells = 4 ∧
    (buildGrid cfgVert (determine_background (PALETTES.getD 0 []))
      (PALETTES.getD 0 []) rngZero).1.map List.length = [2, 2, 2, 2] := by
  decide

/-- The raw (uncompressed, filter-byte-framed) scanline stream the
generator feeds to the compressor at `cfgVert`. -/
def rawVert : List ℕ :=
  ((pixelRows 2 (buildGrid cfgVert (determine_background (PALETTES.getD 0 []))
      (PALETTES.getD 0 []) rngZero).1).map (fun row => 0 :: row)).flatten

/-- C4: at the valid configuration `cfgVert` (`size = 8`, `grid_cells = 4`,
vertical symmetry) decompressing the pixel-data payload succeeds and yields
the 8 filtered rows, but each row after its filter byte has `12 = 3 * 4`
bytes instead of the claimed `3 * size = 24`: the expanded matrix is only
half the declared width. -/
theorem C4_idat_eval :
    zlibDecompress (zlibCompress rawVert) = some rawVert ∧
    (pixelRows 2 (buildGrid cfgVert (determine_background (PALETTES.getD 0 []))
      (PALETTES.getD 0 []) rngZero).1).map List.length = List.replicate 8 12 ∧
    cfgVert.size = 8 ∧ (12 : ℕ) ≠ 3 * 8 :=
  ⟨zlib_roundtrip rawVert, by decide, rfl, by decide⟩

/-- C8: whenever `generate_pixel_art` produces an output stream for a valid
configuration, the header chunk's payload is exactly: width = `size` as a
32-bit big-endian unsigned integer, height = `size` likewise, bit-depth
byte 8, colour-type byte 2 (truecolor without alpha), and the compression,
filter and interlace bytes all 0. -/
theorem C8_header_chunk (cfg : PixelArtConfig) (rng : Rng) (out : List ℕ)
    (hval : cfg.postInit = .ok ()) (hout : generate_pixel_art cfg rng = .ok out) :
    ∃ idat, out =
      [0x89, 0x50, 0x4E, 0x47, 0x0D, 0x0A, 0x1A, 0x0A] ++
      png_chunk [73, 72, 68, 82]
        (be32 cfg.size.toNat ++ be32 cfg.size.toNat ++ [8, 2, 0, 0, 0]) ++
      png_chunk [73, 68, 65, 84] idat ++
      png_chunk [73, 69, 78, 68] [] := by
  unfold generate_pixel_art at hout
  cases hcp : choose_palette rng cfg.palette_index with
  | error e =>
      rw [hcp] at hout
      exact absurd hout (by simp [Bind.bind, Except.bind])
  | ok p =>
      rw [hcp] at hout
      simp only [Bind.bind, Except.bind] at hout
      unfold write_png at hout
      split at hout
      · simp only [Except.ok.injEq] at hout
        exact ⟨_, hout.symm⟩
      · exact absurd hout (by simp)

/-- The byte stream `generate_pixel_art` writes at `cfgVert` with the
constantly-zero rng. -/
def outVert : List ℕ :=
  match generate_pixel_art cfgVert rngZero with
  | .ok o => o
  | .error _ => []

/-- C8 witness: the header-chunk shape of the concrete output at
`cfgVert`. -/
theorem C8_header_chunk_witness :
    ∃ idat, outVert =
      [0x89, 0x50, 0x4E, 0x47, 0x0D, 0x0A, 0x1A, 0x0A] ++
      png_chunk [73, 72, 68, 82]
        (be32 cfgVert.size.toNat ++ be32 cfgVert.size.toNat ++ [8, 2, 0, 0, 0]) ++
      png_chunk [73, 68, 65, 84] idat ++
      png_chunk [73, 69, 78, 68] [] :=
  C8_header_chunk cfgVert rngZero outVert (by decide) rfl
